import Mathlib

/-!
Shallow embedding of the student-records application
(`src/src/Component/Navbar.jsx`): the state-transition reducer, the
validation and derivation helpers of `handleSubmit`, and the derived
filtered/sorted view pipeline.  JavaScript numbers are modelled as exact
rationals (`ℚ`); a thrown exception is modelled as `none` of an `Option`
result; all other JavaScript evaluation in scope is pure and synchronous.
-/

namespace StudentApp

/-! ### JavaScript numeric coercion

`jsNumber` models `Number(s)` (and the implicit `ToNumber` coercion used by
`isNaN`, relational operators and subtraction on strings): leading and
trailing whitespace is ignored, the empty string coerces to `0`, and a
decimal literal with optional sign, fractional part and exponent is parsed
exactly; every other string is `NaN`, modelled as `none`.  (The hexadecimal,
octal, binary and `Infinity` literal forms of the full `StringNumericLiteral`
grammar do not occur in this application and are not modelled.)  Parsing is
split into a syntactic phase (`jsParse`, over characters) and a semantic
phase (`UDec.toRat`, producing the exact rational value). -/

/-- `String.prototype.trim`: drop whitespace from both ends. -/
def jsTrim (s : String) : String :=
  ⟨((s.toList.dropWhile Char.isWhitespace).reverse.dropWhile
      Char.isWhitespace).reverse⟩

def digitsToNat (ds : List Char) : ℕ :=
  ds.foldl (fun acc c => 10 * acc + (c.toNat - 48)) 0

/-- The syntactic pieces of an unsigned JavaScript decimal literal
`digits [. digits] [e sign digits]`. -/
structure UDec where
  intPart : ℕ
  fracPart : ℕ
  fracLen : ℕ
  exp : ℤ
deriving DecidableEq

/-- The exact value of an unsigned decimal literal. -/
def UDec.toRat (u : UDec) : ℚ :=
  ((u.intPart : ℚ) + (u.fracPart : ℚ) / (10 : ℚ) ^ u.fracLen) * (10 : ℚ) ^ u.exp

/-- Parse the optional exponent suffix (`e`/`E`, optional sign, digits) that
may close a JavaScript decimal literal; the whole rest of the string must be
consumed.  `some e` is the exponent value, `none` means `NaN`. -/
def parseExponent : List Char → Option ℤ
  | [] => some 0
  | c :: rest =>
    if c = 'e' ∨ c = 'E' then
      match rest with
      | '+' :: rest2 =>
        let (ds, rest3) := rest2.span Char.isDigit
        if ds = [] ∨ rest3 ≠ [] then none else some (digitsToNat ds : ℤ)
      | '-' :: rest2 =>
        let (ds, rest3) := rest2.span Char.isDigit
        if ds = [] ∨ rest3 ≠ [] then none else some (-(digitsToNat ds : ℤ))
      | _ =>
        let (ds, rest3) := rest.span Char.isDigit
        if ds = [] ∨ rest3 ≠ [] then none else some (digitsToNat ds : ℤ)
    else none

/-- The unsigned part of a JavaScript decimal literal:
`digits [. digits] [exp]` or `. digits [exp]`. -/
def parseUnsignedDecimal (cs : List Char) : Option UDec :=
  let (intDs, rest1) := cs.span Char.isDigit
  match rest1 with
  | '.' :: rest2 =>
    let (fracDs, rest3) := rest2.span Char.isDigit
    if intDs = [] ∧ fracDs = [] then none
    else
      match parseExponent rest3 with
      | none => none
      | some e => some ⟨digitsToNat intDs, digitsToNat fracDs, fracDs.length, e⟩
  | _ =>
    if intDs = [] then none
    else
      match parseExponent rest1 with
      | none => none
      | some e => some ⟨digitsToNat intDs, 0, 0, e⟩

/-- The syntactic phase of `Number(s)`: trim, empty means `0`, optional
sign, then an unsigned decimal literal.  The boolean records a `-` sign. -/
def jsParse (s : String) : Option (Bool × UDec) :=
  match (jsTrim s).toList with
  | [] => some (false, ⟨0, 0, 0, 0⟩)
  | '+' :: rest => (parseUnsignedDecimal rest).map (fun u => (false, u))
  | '-' :: rest => (parseUnsignedDecimal rest).map (fun u => (true, u))
  | cs => (parseUnsignedDecimal cs).map (fun u => (false, u))

/-- `Number(s)` on a string: `none` models `NaN`. -/
def jsNumber (s : String) : Option ℚ :=
  (jsParse s).map fun su => if su.1 then -su.2.toRat else su.2.toRat

/-! ### Derivation helpers (`calculatePercentage`, `getDivision`) -/

/-- Two decimal digits, zero padded: the fractional part of a
`toFixed(2)` result (its argument is always `< 100`). -/
def pad2 (m : ℕ) : String :=
  ⟨[Char.ofNat (48 + m / 10), Char.ofNat (48 + m % 10)]⟩

/-- `x.toFixed(2)` for a nonnegative rational: the integer `n` with
`n / 100` closest to `x` (ties to the larger `n`, i.e. `n = ⌊100x + 1/2⌋`),
printed with exactly two digits after the point. -/
def fix2pos (q : ℚ) : String :=
  let n := ⌊100 * q + 1 / 2⌋.toNat
  Nat.repr (n / 100) ++ "." ++ pad2 (n % 100)

/-- `x.toFixed(2)`: ECMA-262 Number.prototype.toFixed prints a leading
minus sign and rounds the magnitude. -/
def toFixed2 (q : ℚ) : String :=
  if q < 0 then "-" ++ fix2pos (-q) else fix2pos q

/-- `calculatePercentage` (Navbar.jsx:99-103):
`((marks.reduce((sum, m) => sum + m, 0) / 500) * 100).toFixed(2)`. -/
def calculatePercentage (marks : List ℚ) : String :=
  toFixed2 ((marks.foldl (· + ·) 0 / 500) * 100)

/-- `getDivision` (Navbar.jsx:105-110).  Its call site passes the string
produced by `toFixed(2)`; the `>=` comparisons coerce it numerically, so the
function's content is this rational-valued threshold chain. -/
def getDivision (percent : ℚ) : String :=
  if percent ≥ 60 then "First Division"
  else if percent ≥ 50 then "Second Division"
  else if percent ≥ 35 then "Pass"
  else "Fail"

/-! ### Data model -/

/-- A committed student record (`studentData` in `handleSubmit`):
`age` is kept as the entered string, `marks` are the coerced numbers,
`percentage` is the `toFixed(2)` string, `division` the label string. -/
structure Student where
  name : String
  age : String
  marks : List ℚ
  percentage : String
  division : String
deriving DecidableEq

/-- The single application state aggregate (`initialState`, Navbar.jsx:24-32).
`editIndex` is the (possibly arbitrary) dispatched index, `none` for `null`. -/
structure AppState where
  name : String
  age : String
  marks : List String
  students : List Student
  editIndex : Option ℤ
  searchTerm : String
  sortKey : String
deriving DecidableEq

def emptyMarks : List String := ["", "", "", "", ""]

def initialState : AppState :=
  { name := "", age := "", marks := emptyMarks, students := [],
    editIndex := none, searchTerm := "", sortKey := "name" }

/-- The fields the component ever dispatches through `SET_FIELD`. -/
inductive Field where
  | name | age | searchTerm | sortKey
deriving DecidableEq

/-- The reducer's action type; `other` stands for any unrecognized action
(the reducer's `default` branch). -/
inductive Action where
  | setField (f : Field) (v : String)
  | setMark (index : ℤ) (value : String)
  | setStudents (payload : List Student)
  | addStudent (payload : Student)
  | updateStudent (payload : Student)
  | deleteStudent (index : ℤ)
  | editStudent (index : ℤ)
  | other
deriving DecidableEq

/-! ### Reducer -/

/-- JavaScript element assignment `l[i] = x` on (a copy of) an array:
in range it replaces the element; at a negative index it stores an ordinary
object property and the array's elements are unchanged.  (For `i ≥ length`
JavaScript would grow a sparse array with `undefined` holes; no dispatch in
this application reaches that case and it is modelled as the identity.) -/
def jsAssign {α : Type} (l : List α) (i : ℤ) (x : α) : List α :=
  if 0 ≤ i ∧ i.toNat < l.length then l.set i.toNat x else l

/-- JavaScript element read `l[i]`: `none` models `undefined`. -/
def jsIndex {α : Type} (l : List α) (i : ℤ) : Option α :=
  if 0 ≤ i then l.get? i.toNat else none

/-- `students.filter((_, i) => i !== action.index)` with the running filter
index starting at `k`. -/
def deleteAt {α : Type} (k : ℕ) (target : ℤ) : List α → List α
  | [] => []
  | x :: xs =>
    if (k : ℤ) ≠ target then x :: deleteAt (k + 1) target xs
    else deleteAt (k + 1) target xs

/-- `String(n)` on a number, as used by `student.marks.map(String)` in the
`EDIT_STUDENT` branch.  Integers print exactly; for a non-integer value the
fractional digits are produced by repeated multiplication by 10 (JavaScript's
shortest-round-trip printing of a double; the marks stored by this
application always have short finite expansions). -/
def fracDigits : ℕ → ℚ → List Char
  | 0, _ => []
  | fuel + 1, q =>
    if q = 0 then []
    else
      let d := ⌊10 * q⌋.toNat
      Char.ofNat (48 + d) :: fracDigits fuel (10 * q - (d : ℚ))

def jsNumberToString (q : ℚ) : String :=
  if q < 0 then "-" ++ jsNumberToString' (-q) else jsNumberToString' q
where
  jsNumberToString' (q : ℚ) : String :=
    let ip := ⌊q⌋.toNat
    if q.den = 1 then Nat.repr ip
    else Nat.repr ip ++ "." ++ ⟨fracDigits 20 (q - (ip : ℚ))⟩

/-- The reducer (Navbar.jsx:35-83) as a pure transition function.
`none` models a thrown exception: the only branch that can throw is
`EDIT_STUDENT`, where `state.students[action.index]` is `undefined` out of
range and the following `student.name` raises a `TypeError`.  Every branch
builds a fresh aggregate by spreading the previous state; nothing mutates
the previous state, which the pure embedding reflects by construction. -/
def reducer (state : AppState) (action : Action) : Option AppState :=
  match action with
  | .setField f v =>
    some (match f with
      | .name => { state with name := v }
      | .age => { state with age := v }
      | .searchTerm => { state with searchTerm := v }
      | .sortKey => { state with sortKey := v })
  | .setMark index value =>
    some { state with marks := jsAssign state.marks index value }
  | .setStudents payload =>
    some { state with students := payload }
  | .addStudent payload =>
    some { state with
            students := state.students ++ [payload]
            name := "", age := "", marks := emptyMarks, editIndex := none }
  | .updateStudent payload =>
    -- `updated[state.editIndex] = action.payload` on a copy: a `null`
    -- (or negative) editIndex stores a plain property, leaving the
    -- array elements unchanged; no exception in any case.
    let updated := match state.editIndex with
      | some i => jsAssign state.students i payload
      | none => state.students
    some { state with
            students := updated
            name := "", age := "", marks := emptyMarks, editIndex := none }
  | .deleteStudent index =>
    some { state with students := deleteAt 0 index state.students }
  | .editStudent index =>
    match jsIndex state.students index with
    | none => none
    | some student =>
      some { state with
              name := student.name, age := student.age
              marks := student.marks.map jsNumberToString
              editIndex := some index }
  | .other => some state

/-! ### Form submission (`handleSubmit`, Navbar.jsx:112-158) -/

/-- The four user-facing validation failures, in the order the checks run. -/
inductive VErr where
  | missingFields | invalidName | invalidMarks | invalidAge
deriving DecidableEq

/-- `/^[A-Za-z ]+$/.test(name.trim())`: the trimmed name is nonempty and
every character is an ASCII letter or a space. -/
def nameOk (name : String) : Bool :=
  let t := jsTrim name
  t ≠ "" && t.toList.all (fun c =>
    ('A' ≤ c && c ≤ 'Z') || ('a' ≤ c && c ≤ 'z') || c = ' ')

/-- A mark fails `isNaN(m) || m < 0 || m > 100` after `Number` coercion. -/
def badMark (m : String) : Bool :=
  match jsNumber m with
  | none => true
  | some q => decide (q < 0) || decide (100 < q)

/-- `isNaN(age) || Number(age) <= 0 || Number(age) > 100`. -/
def badAge (age : String) : Bool :=
  match jsNumber age with
  | none => true
  | some a => decide (a ≤ 0) || decide (100 < a)

/-- `!name || !age || marks.some(m => m === '')` — the only falsy string
is the empty one. -/
def missingCheck (name age : String) (marks : List String) : Bool :=
  name = "" || age = "" || marks.any (· = "")

/-- The validation chain of `handleSubmit`, returning the first violated
rule (field completeness, then name pattern, then marks range, then age
range). -/
def validate (name age : String) (marks : List String) : Option VErr :=
  if missingCheck name age marks then some .missingFields
  else if !nameOk name then some .invalidName
  else if marks.any badMark then some .invalidMarks
  else if badAge age then some .invalidAge
  else none

/-- `handleSubmit` as a state transformer: an invalid draft returns early
(only a toast fires, no dispatch), otherwise `studentData` is built and
`UPDATE_STUDENT` or `ADD_STUDENT` is dispatched through the reducer.
The `getDivision(percentage)` call passes the `toFixed(2)` string, which
the `>=` comparisons coerce back to a number. -/
def handleSubmit (s : AppState) : AppState :=
  match validate s.name s.age s.marks with
  | some _ => s
  | none =>
    let markNums := s.marks.map (fun m => (jsNumber m).getD 0)
    let percentage := calculatePercentage markNums
    let division := getDivision ((jsNumber percentage).getD 0)
    let studentData : Student :=
      { name := jsTrim s.name, age := s.age, marks := markNums,
        percentage := percentage, division := division }
    match s.editIndex with
    | some _ => (reducer s (.updateStudent studentData)).getD s
    | none => (reducer s (.addStudent studentData)).getD s

/-! ### The derived view (`filteredSortedData`, Navbar.jsx:160-180) -/

/-- A displayed row: `{ ...student, originalIndex }`. -/
structure ViewRow where
  student : Student
  originalIndex : ℕ
deriving DecidableEq

/-- `students.map((student, originalIndex) => ({ ...student, originalIndex }))`
with the running index starting at `k`. -/
def annotate (k : ℕ) : List Student → List ViewRow
  | [] => []
  | s :: ss => ⟨s, k⟩ :: annotate (k + 1) ss

/-- `String.prototype.toLowerCase` (the names in scope are ASCII). -/
def jsToLower (s : String) : String :=
  ⟨s.toList.map Char.toLower⟩

/-- `sub` occurs as a contiguous substring of `hay`
(`String.prototype.includes`; the empty string occurs in everything). -/
def beginsWith : List Char → List Char → Bool
  | [], _ => true
  | _ :: _, [] => false
  | c :: cs, d :: ds => c = d && beginsWith cs ds

def hasSub (sub : List Char) : List Char → Bool
  | [] => sub = []
  | d :: ds => beginsWith sub (d :: ds) || hasSub sub ds

def jsIncludes (hay sub : String) : Bool :=
  hasSub sub.toList hay.toList

/-- Stable sort by a JavaScript comparator (`Array.prototype.sort` on the
fresh array produced by `filter`; ECMAScript requires a stable sort, and a
`NaN` comparator result is treated as `+0`).  Insertion sort placing each
element before the first existing element it does not compare after is the
canonical stable sort. -/
def insertCmp {α : Type} (c : α → α → ℚ) (x : α) : List α → List α
  | [] => [x]
  | y :: ys => if c x y ≤ 0 then x :: y :: ys else y :: insertCmp c x ys

def sortCmp {α : Type} (c : α → α → ℚ) : List α → List α
  | [] => []
  | x :: xs => insertCmp c x (sortCmp c xs)

/-- The `divisionOrder` lookup object (Navbar.jsx:160-165); `none` models
`undefined` for any other key. -/
def divisionOrder (d : String) : Option ℚ :=
  if d = "First Division" then some 1
  else if d = "Second Division" then some 2
  else if d = "Pass" then some 3
  else if d = "Fail" then some 4
  else none

/-- The sort comparator (Navbar.jsx:172-180).  `localeCompare` is
locale-dependent, so the name comparison is a parameter `cmpName`.
`divisionOrder[a.division] - divisionOrder[b.division]` and
`b.percentage - a.percentage` (string operands coerced by subtraction)
produce `NaN` when a lookup is `undefined` or a coercion fails;
`SortCompare` treats a `NaN` comparator value as `+0`. -/
def viewComparator (sortKey : String) (cmpName : String → String → ℚ)
    (a b : ViewRow) : ℚ :=
  if sortKey = "name" then cmpName a.student.name b.student.name
  else if sortKey = "division" then
    match divisionOrder a.student.division, divisionOrder b.student.division with
    | some x, some y => x - y
    | _, _ => 0
  else
    match jsNumber b.student.percentage, jsNumber a.student.percentage with
    | some x, some y => x - y
    | _, _ => 0

/-- `filteredSortedData`: annotate with the original index, filter by
case-insensitive name containment of the search term, then sort (on the
fresh filtered array — the canonical list is never mutated, which the pure
embedding reflects by construction). -/
def filteredSortedData (cmpName : String → String → ℚ) (state : AppState) :
    List ViewRow :=
  sortCmp (viewComparator state.sortKey cmpName)
    ((annotate 0 state.students).filter (fun r =>
      jsIncludes (jsToLower r.student.name) (jsToLower state.searchTerm)))

/-! ### The spec's reference view pipeline (§4.5), for refinement against
`filteredSortedData` -/

/-- The spec's fixed division rank: First(1) < Second(2) < Pass(3) < Fail(4).
The spec assigns no rank to any other label (the data model makes
`division` one of the four); the default is arbitrary. -/
def specDivisionRank (d : String) : ℚ :=
  if d = "First Division" then 1
  else if d = "Second Division" then 2
  else if d = "Pass" then 3
  else if d = "Fail" then 4
  else 5

/-- The numeric value of a record's stored percentage string. -/
def specNumPercentage (s : Student) : ℚ :=
  (jsNumber s.percentage).getD 0

/-- The spec's sort orders as a comparator: name ascending by the
locale comparison, division ascending by fixed rank, percentage
descending numerically. -/
def specComparator (sortKey : String) (cmpName : String → String → ℚ)
    (a b : ViewRow) : ℚ :=
  if sortKey = "name" then cmpName a.student.name b.student.name
  else if sortKey = "division" then
    specDivisionRank a.student.division - specDivisionRank b.student.division
  else specNumPercentage b.student - specNumPercentage a.student

/-- The spec's reference pipeline: annotate each record with its index in
the canonical list, keep the records whose name case-insensitively contains
the search term, then stable-sort by the active key. -/
def specViewPipeline (cmpName : String → String → ℚ) (students : List Student)
    (searchTerm sortKey : String) : List ViewRow :=
  sortCmp (specComparator sortKey cmpName)
    ((annotate 0 students).filter (fun r =>
      jsIncludes (jsToLower r.student.name) (jsToLower searchTerm)))

/-! ### Transition preconditions

The spec's transition table (§4.3) states preconditions for `SET_MARK`,
`UPDATE_STUDENT`, `DELETE_STUDENT` and `EDIT_STUDENT`; the remaining
actions are unconditional. -/

def actionPre (s : AppState) : Action → Prop
  | .setMark index _ => 0 ≤ index ∧ index < 5
  | .updateStudent _ => s.editIndex ≠ none
  | .deleteStudent index => 0 ≤ index ∧ index.toNat < s.students.length
  | .editStudent index => 0 ≤ index ∧ index.toNat < s.students.length
  | _ => True

/-! ### Sample data for witnesses and examples -/

def sampleStudent (nm : String) : Student :=
  { name := nm, age := "20", marks := [50, 50, 50, 50, 50],
    percentage := "50.00", division := "Second Division" }

def fiveState : AppState :=
  { initialState with
      students := [sampleStudent "A", sampleStudent "B", sampleStudent "C",
                   sampleStudent "D", sampleStudent "E"] }

/-- Student A of the spec's end-to-end example. -/
def exampleA : Student :=
  { name := "John", age := "20", marks := [80, 70, 90, 60, 100],
    percentage := "80.00", division := "First Division" }

/-- Student B of the spec's end-to-end example. -/
def exampleB : Student :=
  { name := "Bob", age := "21", marks := [40, 40, 40, 40, 40],
    percentage := "40.00", division := "Pass" }

def exampleState : AppState :=
  { initialState with
      students := [exampleA, exampleB]
      sortKey := "percentage" }

/-! ### Helper lemmas -/

theorem foldl_add_eq_sum (l : List ℚ) : ∀ a : ℚ, l.foldl (· + ·) a = a + l.sum := by
  induction l with
  | nil => simp
  | cons x xs ih => intro a; simp only [List.foldl_cons, ih, List.sum_cons]; ring

theorem deleteAt_eq_of_out {α : Type} (t : ℤ) :
    ∀ (l : List α) (k : ℕ), (t < (k : ℤ) ∨ ((k : ℤ) + l.length) ≤ t) →
      deleteAt k t l = l := by
  intro l
  induction l with
  | nil => intro k _; rfl
  | cons x xs ih =>
    intro k h
    have hlen : ((k : ℤ) + (x :: xs).length) = ((k + 1 : ℕ) : ℤ) + xs.length := by
      simp [List.length_cons]; ring
    have hne : (k : ℤ) ≠ t := by
      rcases h with h | h
      · omega
      · rw [hlen] at h; push_cast at h; omega
    have hrec : t < ((k + 1 : ℕ) : ℤ) ∨ ((k + 1 : ℕ) : ℤ) + xs.length ≤ t := by
      rcases h with h | h
      · left; omega
      · right; rw [hlen] at h; exact h
    simp only [deleteAt, if_pos hne, ih (k + 1) hrec]

theorem deleteAt_eq_of_in {α : Type} (t : ℤ) :
    ∀ (l : List α) (k j : ℕ), t = (k : ℤ) + j → j < l.length →
      deleteAt k t l = l.take j ++ l.drop (j + 1) := by
  intro l
  induction l with
  | nil => intro k j _ h; simp at h
  | cons x xs ih =>
    intro k j ht hj
    cases j with
    | zero =>
      have hkt : (k : ℤ) = t := by omega
      have : deleteAt k t (x :: xs) = deleteAt (k + 1) t xs := by
        simp only [deleteAt, if_neg (by omega : ¬((k : ℤ) ≠ t))]
      rw [this, deleteAt_eq_of_out t xs (k + 1) (by left; push_cast; omega)]
      simp
    | succ j' =>
      have hne : (k : ℤ) ≠ t := by push_cast at ht; omega
      have ht' : t = ((k + 1 : ℕ) : ℤ) + j' := by push_cast at ht ⊢; omega
      have hj' : j' < xs.length := by simp [List.length_cons] at hj; omega
      simp only [deleteAt, if_pos hne, ih (k + 1) j' ht' hj']
      simp [List.take_succ_cons, List.drop_succ_cons]

theorem jsAssign_of_lt {α : Type} (l : List α) (i : ℤ) (x : α)
    (h0 : 0 ≤ i) (hlt : i.toNat < l.length) :
    jsAssign l i x = l.set i.toNat x := by
  simp [jsAssign, h0, hlt]

theorem mem_of_mem_insertCmp {α : Type} (c : α → α → ℚ) (x : α) :
    ∀ (l : List α) (y : α), y ∈ insertCmp c x l → y = x ∨ y ∈ l := by
  intro l
  induction l with
  | nil => intro y hy; simp [insertCmp] at hy; exact Or.inl hy
  | cons z zs ih =>
    intro y hy
    simp only [insertCmp] at hy
    by_cases hc : c x z ≤ 0
    · rw [if_pos hc] at hy
      rcases List.mem_cons.mp hy with hy | hy
      · exact Or.inl hy
      · exact Or.inr hy
    · rw [if_neg hc] at hy
      rcases List.mem_cons.mp hy with hy | hy
      · exact Or.inr (by simp [hy])
      · rcases ih y hy with hy | hy
        · exact Or.inl hy
        · exact Or.inr (List.mem_cons_of_mem _ hy)

theorem mem_of_mem_sortCmp {α : Type} (c : α → α → ℚ) :
    ∀ (l : List α) (y : α), y ∈ sortCmp c l → y ∈ l := by
  intro l
  induction l with
  | nil => intro y hy; simp [sortCmp] at hy
  | cons x xs ih =>
    intro y hy
    simp only [sortCmp] at hy
    rcases mem_of_mem_insertCmp c x _ y hy with hy | hy
    · simp [hy]
    · exact List.mem_cons_of_mem _ (ih y hy)

theorem insertCmp_congr {α : Type} (c₁ c₂ : α → α → ℚ) (x : α) :
    ∀ l : List α, (∀ y ∈ l, c₁ x y = c₂ x y) →
      insertCmp c₁ x l = insertCmp c₂ x l := by
  intro l
  induction l with
  | nil => intro _; rfl
  | cons z zs ih =>
    intro h
    simp only [insertCmp, h z (List.mem_cons_self z zs)]
    by_cases hc : c₂ x z ≤ 0
    · rw [if_pos hc, if_pos hc]
    · rw [if_neg hc, if_neg hc, ih (fun y hy => h y (List.mem_cons_of_mem _ hy))]

theorem sortCmp_congr {α : Type} (c₁ c₂ : α → α → ℚ) :
    ∀ l : List α, (∀ a ∈ l, ∀ b ∈ l, c₁ a b = c₂ a b) →
      sortCmp c₁ l = sortCmp c₂ l := by
  intro l
  induction l with
  | nil => intro _; rfl
  | cons x xs ih =>
    intro h
    have hxs : sortCmp c₁ xs = sortCmp c₂ xs :=
      ih (fun a ha b hb =>
        h a (List.mem_cons_of_mem _ ha) b (List.mem_cons_of_mem _ hb))
    simp only [sortCmp, hxs]
    refine insertCmp_congr c₁ c₂ x _ (fun y hy => ?_)
    have hy' : y ∈ xs := mem_of_mem_sortCmp c₂ xs y hy
    exact h x (List.mem_cons_self x xs) y (List.mem_cons_of_mem _ hy')

theorem student_mem_of_mem_annotate :
    ∀ (l : List Student) (k : ℕ) (r : ViewRow), r ∈ annotate k l →
      r.student ∈ l := by
  intro l
  induction l with
  | nil => intro k r hr; simp [annotate] at hr
  | cons s ss ih =>
    intro k r hr
    simp only [annotate] at hr
    rcases List.mem_cons.mp hr with hr | hr
    · simp [hr]
    · exact List.mem_cons_of_mem _ (ih (k + 1) r hr)

theorem jsNumber_50 : jsNumber "50" = some 50 := by
  have h : jsParse "50" = some (false, ⟨50, 0, 0, 0⟩) := by decide
  simp [jsNumber, h, UDec.toRat]

theorem jsNumber_0 : jsNumber "0" = some 0 := by
  have h : jsParse "0" = some (false, ⟨0, 0, 0, 0⟩) := by decide
  simp [jsNumber, h, UDec.toRat]

theorem jsNumber_101 : jsNumber "101" = some 101 := by
  have h : jsParse "101" = some (false, ⟨101, 0, 0, 0⟩) := by decide
  simp [jsNumber, h, UDec.toRat]

theorem jsNumber_80_00 : jsNumber "80.00" = some 80 := by
  have h : jsParse "80.00" = some (false, ⟨80, 0, 2, 0⟩) := by decide
  simp [jsNumber, h, UDec.toRat]

theorem jsNumber_40_00 : jsNumber "40.00" = some 40 := by
  have h : jsParse "40.00" = some (false, ⟨40, 0, 2, 0⟩) := by decide
  simp [jsNumber, h, UDec.toRat]

theorem missingCheck_iff (name age : String) (marks : List String) :
    missingCheck name age marks = true ↔
      (name = "" ∨ age = "" ∨ "" ∈ marks) := by
  simp [missingCheck, List.any_eq_true, or_assoc]

theorem nameOk_iff (name : String) :
    nameOk name = true ↔
      (jsTrim name ≠ "" ∧ ∀ c ∈ (jsTrim name).toList,
        ('A' ≤ c ∧ c ≤ 'Z') ∨ ('a' ≤ c ∧ c ≤ 'z') ∨ c = ' ') := by
  simp [nameOk, List.all_eq_true, or_assoc]

theorem badMark_iff (m : String) :
    badMark m = true ↔
      (jsNumber m = none ∨ ∃ q, jsNumber m = some q ∧ (q < 0 ∨ 100 < q)) := by
  cases h : jsNumber m <;> simp [badMark, h]

theorem badAge_iff (age : String) :
    badAge age = true ↔
      (jsNumber age = none ∨ ∃ a, jsNumber age = some a ∧ (a ≤ 0 ∨ 100 < a)) := by
  cases h : jsNumber age <;> simp [badAge, h]

theorem anyBadMark_iff (marks : List String) :
    marks.any badMark = true ↔
      (∃ m ∈ marks, jsNumber m = none ∨
        ∃ q, jsNumber m = some q ∧ (q < 0 ∨ 100 < q)) := by
  simp [List.any_eq_true, badMark_iff]

/-! ### Claims -/

/-- C1: for every application state and every action (recognized or not),
the reducer returns a new state without throwing, with the preconditions of
the spec's transition table taken as hypotheses.  The embedding is pure, so
the previous aggregate is never mutated and each transition builds a fresh
aggregate by construction; totality is the content proved here, and it
covers `EDIT_STUDENT` and `UPDATE_STUDENT` for every payload under the
table's preconditions. -/
theorem spec_C1 (s : AppState) (a : Action) (h : actionPre s a) :
    ∃ s', reducer s a = some s' := by
  cases a with
  | editStudent i =>
    obtain ⟨h0, hlt⟩ := h
    obtain ⟨v, hv⟩ : ∃ v, s.students[i.toNat]? = some v :=
      ⟨_, List.getElem?_eq_getElem hlt⟩
    have hred : reducer s (.editStudent i) =
        some { s with
                name := v.name
                age := v.age
                marks := v.marks.map jsNumberToString
                editIndex := some i } := by
      simp [reducer, jsIndex, h0, hv]
    exact ⟨_, hred⟩
  | setField f v => exact ⟨_, rfl⟩
  | setMark i v => exact ⟨_, rfl⟩
  | setStudents p => exact ⟨_, rfl⟩
  | addStudent p => exact ⟨_, rfl⟩
  | updateStudent p => exact ⟨_, rfl⟩
  | deleteStudent i => exact ⟨_, rfl⟩
  | other => exact ⟨_, rfl⟩

/-- Witness for C1 at a concrete state and the throw-prone action. -/
theorem spec_C1_witness :
    ∃ s', reducer fiveState (.editStudent 0) = some s' :=
  spec_C1 fiveState (.editStudent 0)
    ⟨by norm_num, by norm_num [fiveState, initialState]⟩

/-- C2: the division classifier returns First Division on `p ≥ 60`,
Second Division on `50 ≤ p < 60`, Pass on `35 ≤ p < 50`, Fail otherwise,
with the stated boundary values. -/
theorem spec_C2 :
    (∀ p : ℚ,
      (60 ≤ p → getDivision p = "First Division") ∧
      (50 ≤ p → p < 60 → getDivision p = "Second Division") ∧
      (35 ≤ p → p < 50 → getDivision p = "Pass") ∧
      (p < 35 → getDivision p = "Fail")) ∧
    getDivision (5999 / 100) = "Second Division" ∧
    getDivision 60 = "First Division" ∧
    getDivision (4999 / 100) = "Pass" ∧
    getDivision 50 = "Second Division" ∧
    getDivision (3499 / 100) = "Fail" ∧
    getDivision 35 = "Pass" := by
  constructor
  · intro p
    refine ⟨fun h1 => ?_, fun h1 h2 => ?_, fun h1 h2 => ?_, fun h1 => ?_⟩
    · rw [getDivision, if_pos (by linarith)]
    · rw [getDivision, if_neg (by linarith), if_pos (by linarith)]
    · rw [getDivision, if_neg (by linarith), if_neg (by linarith),
        if_pos (by linarith)]
    · rw [getDivision, if_neg (by linarith), if_neg (by linarith),
        if_neg (by linarith)]
  · refine ⟨?_, ?_, ?_, ?_, ?_, ?_⟩ <;> norm_num [getDivision]

/-- Witness for C2 at the First Division boundary. -/
theorem spec_C2_witness : getDivision 60 = "First Division" :=
  (spec_C2.1 60).1 (by norm_num)

/-- C3: the computed percentage is `(sum(marks) / 500) * 100` rounded to
two decimal places and returned as a numeric string with two decimal
digits, with the two end-to-end examples. -/
theorem spec_C3 :
    (∀ marks : List ℚ, marks.length = 5 → (∀ m ∈ marks, 0 ≤ m ∧ m ≤ 100) →
      calculatePercentage marks = toFixed2 (marks.sum / 500 * 100) ∧
      ∃ a b, calculatePercentage marks = a ++ "." ++ b ∧ b.length = 2) ∧
    calculatePercentage [80, 70, 90, 60, 100] = "80.00" ∧
    calculatePercentage [40, 40, 40, 40, 40] = "40.00" := by
  refine ⟨fun marks _ hm => ?_, ?_, ?_⟩
  · have hfold : marks.foldl (· + ·) 0 = marks.sum := by
      rw [foldl_add_eq_sum]; ring
    have heq : calculatePercentage marks = toFixed2 (marks.sum / 500 * 100) := by
      unfold calculatePercentage; rw [hfold]
    refine ⟨heq, ?_⟩
    have hq : (0 : ℚ) ≤ marks.sum / 500 * 100 := by
      have hs : (0 : ℚ) ≤ marks.sum := List.sum_nonneg (fun m hm' => (hm m hm').1)
      positivity
    rw [heq, toFixed2, if_neg (by linarith)]
    exact ⟨Nat.repr _, pad2 _, rfl, rfl⟩
  · unfold calculatePercentage
    rw [show ((List.foldl (· + ·) (0 : ℚ) [80, 70, 90, 60, 100]) / 500) * 100 = 80
      by norm_num]
    rw [toFixed2, if_neg (by norm_num), fix2pos]
    rw [show ⌊(100 : ℚ) * 80 + 1 / 2⌋ = 8000 by norm_num]
    decide
  · unfold calculatePercentage
    rw [show ((List.foldl (· + ·) (0 : ℚ) [40, 40, 40, 40, 40]) / 500) * 100 = 40
      by norm_num]
    rw [toFixed2, if_neg (by norm_num), fix2pos]
    rw [show ⌊(100 : ℚ) * 40 + 1 / 2⌋ = 4000 by norm_num]
    decide

/-- Witness for C3 at the first example's marks. -/
theorem spec_C3_witness :
    calculatePercentage [80, 70, 90, 60, 100] =
      toFixed2 (([80, 70, 90, 60, 100] : List ℚ).sum / 500 * 100) ∧
    ∃ a b, calculatePercentage [80, 70, 90, 60, 100] = a ++ "." ++ b ∧
      b.length = 2 :=
  spec_C3.1 [80, 70, 90, 60, 100] (by norm_num) (by norm_num)

/-- C4: validation returns the first violated rule in the fixed order
missing fields, invalid name, invalid marks, invalid age, with the three
rejection examples. -/
theorem spec_C4 :
    (∀ (name age : String) (marks : List String), marks.length = 5 →
      ((validate name age marks = some .missingFields ↔
         (name = "" ∨ age = "" ∨ "" ∈ marks)) ∧
       (validate name age marks = some .invalidName ↔
         ¬(name = "" ∨ age = "" ∨ "" ∈ marks) ∧
         ¬(jsTrim name ≠ "" ∧ ∀ c ∈ (jsTrim name).toList,
            ('A' ≤ c ∧ c ≤ 'Z') ∨ ('a' ≤ c ∧ c ≤ 'z') ∨ c = ' ')) ∧
       (validate name age marks = some .invalidMarks ↔
         ¬(name = "" ∨ age = "" ∨ "" ∈ marks) ∧
         (jsTrim name ≠ "" ∧ ∀ c ∈ (jsTrim name).toList,
            ('A' ≤ c ∧ c ≤ 'Z') ∨ ('a' ≤ c ∧ c ≤ 'z') ∨ c = ' ') ∧
         (∃ m ∈ marks, jsNumber m = none ∨
            ∃ q, jsNumber m = some q ∧ (q < 0 ∨ 100 < q))) ∧
       (validate name age marks = some .invalidAge ↔
         ¬(name = "" ∨ age = "" ∨ "" ∈ marks) ∧
         (jsTrim name ≠ "" ∧ ∀ c ∈ (jsTrim name).toList,
            ('A' ≤ c ∧ c ≤ 'Z') ∨ ('a' ≤ c ∧ c ≤ 'z') ∨ c = ' ') ∧
         ¬(∃ m ∈ marks, jsNumber m = none ∨
            ∃ q, jsNumber m = some q ∧ (q < 0 ∨ 100 < q)) ∧
         (jsNumber age = none ∨
            ∃ a, jsNumber age = some a ∧ (a ≤ 0 ∨ 100 < a))) ∧
       (validate name age marks = none ↔
         ¬(name = "" ∨ age = "" ∨ "" ∈ marks) ∧
         (jsTrim name ≠ "" ∧ ∀ c ∈ (jsTrim name).toList,
            ('A' ≤ c ∧ c ≤ 'Z') ∨ ('a' ≤ c ∧ c ≤ 'z') ∨ c = ' ') ∧
         ¬(∃ m ∈ marks, jsNumber m = none ∨
            ∃ q, jsNumber m = some q ∧ (q < 0 ∨ 100 < q)) ∧
         ¬(jsNumber age = none ∨
            ∃ a, jsNumber age = some a ∧ (a ≤ 0 ∨ 100 < a))))) ∧
    validate "John3" "20" ["50", "50", "50", "50", "50"] = some .invalidName ∧
    validate "John" "20" ["101", "0", "0", "0", "0"] = some .invalidMarks ∧
    validate "John" "0" ["50", "50", "50", "50", "50"] = some .invalidAge := by
  refine ⟨fun name age marks _ => ?_, ?_, ?_, ?_⟩
  · have hM := missingCheck_iff name age marks
    have hN := nameOk_iff name
    have hK := anyBadMark_iff marks
    have hG := badAge_iff age
    unfold validate
    by_cases h1 : missingCheck name age marks = true
    · rw [if_pos h1]
      have hMp := hM.mp h1
      exact ⟨iff_of_true rfl hMp,
        iff_of_false (by simp) (fun hc => hc.1 hMp),
        iff_of_false (by simp) (fun hc => hc.1 hMp),
        iff_of_false (by simp) (fun hc => hc.1 hMp),
        iff_of_false (by simp) (fun hc => hc.1 hMp)⟩
    · rw [if_neg h1]
      have hMn : ¬(name = "" ∨ age = "" ∨ "" ∈ marks) :=
        fun hm => h1 (hM.mpr hm)
      by_cases h2 : nameOk name = true
      · have hNp := hN.mp h2
        rw [if_neg (by simp [h2])]
        by_cases h3 : marks.any badMark = true
        · rw [if_pos h3]
          have hKp := hK.mp h3
          exact ⟨iff_of_false (by simp) hMn,
            iff_of_false (by simp) (fun hc => hc.2 hNp),
            iff_of_true rfl ⟨hMn, hNp, hKp⟩,
            iff_of_false (by simp) (fun hc => hc.2.2.1 hKp),
            iff_of_false (by simp) (fun hc => hc.2.2.1 hKp)⟩
        · rw [if_neg h3]
          have hKn : ¬(∃ m ∈ marks, jsNumber m = none ∨
              ∃ q, jsNumber m = some q ∧ (q < 0 ∨ 100 < q)) :=
            fun hk => h3 (hK.mpr hk)
          by_cases h4 : badAge age = true
          · rw [if_pos h4]
            have hGp := hG.mp h4
            exact ⟨iff_of_false (by simp) hMn,
              iff_of_false (by simp) (fun hc => hc.2 hNp),
              iff_of_false (by simp) (fun hc => hKn hc.2.2),
              iff_of_true rfl ⟨hMn, hNp, hKn, hGp⟩,
              iff_of_false (by simp) (fun hc => hc.2.2.2 hGp)⟩
          · rw [if_neg h4]
            have hGn : ¬(jsNumber age = none ∨
                ∃ a, jsNumber age = some a ∧ (a ≤ 0 ∨ 100 < a)) :=
              fun hg => h4 (hG.mpr hg)
            exact ⟨iff_of_false (by simp) hMn,
              iff_of_false (by simp) (fun hc => hc.2 hNp),
              iff_of_false (by simp) (fun hc => hKn hc.2.2),
              iff_of_false (by simp) (fun hc => hGn hc.2.2.2),
              iff_of_true rfl ⟨hMn, hNp, hKn, hGn⟩⟩
      · rw [if_pos (by simp [h2])]
        have hPn : ¬(jsTrim name ≠ "" ∧ ∀ c ∈ (jsTrim name).toList,
            ('A' ≤ c ∧ c ≤ 'Z') ∨ ('a' ≤ c ∧ c ≤ 'z') ∨ c = ' ') :=
          fun hok => h2 (hN.mpr hok)
        exact ⟨iff_of_false (by simp) hMn,
          iff_of_true rfl ⟨hMn, hPn⟩,
          iff_of_false (by simp) (fun hc => hPn hc.2.1),
          iff_of_false (by simp) (fun hc => hPn hc.2.1),
          iff_of_false (by simp) (fun hc => hPn hc.2.1)⟩
  · decide
  · have h3 : (["101", "0", "0", "0", "0"] : List String).any badMark = true := by
      norm_num [badMark, jsNumber_101, jsNumber_0]
    simp [validate, h3]
    decide
  · have h3 : (["50", "50", "50", "50", "50"] : List String).any badMark = false := by
      norm_num [badMark, jsNumber_50]
    have h4 : badAge "0" = true := by norm_num [badAge, jsNumber_0]
    simp [validate, h3, h4]
    decide

/-- Witness for C4 on the first rejection example's draft. -/
theorem spec_C4_witness :
    validate "John3" "20" ["50", "50", "50", "50", "50"] = some .invalidName ↔
      ¬("John3" = "" ∨ "20" = "" ∨ "" ∈ ["50", "50", "50", "50", "50"]) ∧
      ¬(jsTrim "John3" ≠ "" ∧ ∀ c ∈ (jsTrim "John3").toList,
         ('A' ≤ c ∧ c ≤ 'Z') ∨ ('a' ≤ c ∧ c ≤ 'z') ∨ c = ' ') :=
  (spec_C4.1 "John3" "20" ["50", "50", "50", "50", "50"] (by norm_num)).2.1

/-- C5: whenever the draft fails a validation rule, `handleSubmit`
dispatches nothing and returns the state unchanged. -/
theorem spec_C5 (s : AppState) (e : VErr)
    (h : validate s.name s.age s.marks = some e) : handleSubmit s = s := by
  simp [handleSubmit, h]

/-- Witness for C5: the empty initial draft is missing its fields. -/
theorem spec_C5_witness : handleSubmit initialState = initialState :=
  spec_C5 initialState .missingFields (by decide)

/-- C6: `ADD_STUDENT` appends the record at the end (length grows by one,
previous entries unchanged in place and order) and resets the draft with
`editIndex` null. -/
theorem spec_C6 (s : AppState) (r : Student) :
    ∃ s', reducer s (.addStudent r) = some s' ∧
      s'.students = s.students ++ [r] ∧
      s'.students.length = s.students.length + 1 ∧
      (∀ i, i < s.students.length → s'.students[i]? = s.students[i]?) ∧
      s'.students[s.students.length]? = some r ∧
      s'.name = "" ∧ s'.age = "" ∧ s'.marks = emptyMarks ∧
      s'.editIndex = none := by
  refine ⟨_, rfl, rfl, by simp, fun i hi => List.getElem?_append_left hi,
    List.getElem?_concat_length _ _, rfl, rfl, rfl, rfl⟩

/-- Witness for C6 on a concrete state. -/
theorem spec_C6_witness :
    ∃ s', reducer fiveState (.addStudent (sampleStudent "F")) = some s' ∧
      s'.students = fiveState.students ++ [sampleStudent "F"] ∧
      s'.students.length = fiveState.students.length + 1 ∧
      (∀ i, i < fiveState.students.length →
        s'.students[i]? = fiveState.students[i]?) ∧
      s'.students[fiveState.students.length]? = some (sampleStudent "F") ∧
      s'.name = "" ∧ s'.age = "" ∧ s'.marks = emptyMarks ∧
      s'.editIndex = none :=
  spec_C6 fiveState (sampleStudent "F")

/-- C7: an in-range `DELETE_STUDENT(i)` removes exactly the entry at
index `i`, the others keeping their relative order, and deleting index 2
from a 5-element list yields the other 4 in order. -/
theorem spec_C7 :
    (∀ (s : AppState) (i : ℤ), 0 ≤ i → i.toNat < s.students.length →
      ∃ s', reducer s (.deleteStudent i) = some s' ∧
        s'.students = s.students.take i.toNat ++ s.students.drop (i.toNat + 1) ∧
        s'.students.length = s.students.length - 1) ∧
    (∃ s', reducer fiveState (.deleteStudent 2) = some s' ∧
      s'.students = [sampleStudent "A", sampleStudent "B",
                     sampleStudent "D", sampleStudent "E"]) := by
  constructor
  · intro s i h0 hlt
    have hdel : deleteAt 0 i s.students =
        s.students.take i.toNat ++ s.students.drop (i.toNat + 1) :=
      deleteAt_eq_of_in i s.students 0 i.toNat
        (by rw [Int.toNat_of_nonneg h0]; ring) hlt
    refine ⟨_, rfl, hdel, ?_⟩
    show (deleteAt 0 i s.students).length = s.students.length - 1
    rw [hdel]
    simp only [List.length_append, List.length_take, List.length_drop]
    omega
  · exact ⟨_, rfl, by decide⟩

/-- Witness for C7 at a concrete state and index. -/
theorem spec_C7_witness :
    ∃ s', reducer fiveState (.deleteStudent 2) = some s' ∧
      s'.students = fiveState.students.take (2 : ℤ).toNat ++
        fiveState.students.drop ((2 : ℤ).toNat + 1) ∧
      s'.students.length = fiveState.students.length - 1 :=
  spec_C7.1 fiveState 2 (by norm_num) (by norm_num [fiveState, initialState])

/-- C8: `EDIT_STUDENT(i)` followed by `UPDATE_STUDENT(r)` replaces exactly
the entry at index `i`, leaves every other entry identical, clears
`editIndex` and resets the draft. -/
theorem spec_C8 (s : AppState) (i : ℤ) (r : Student) (h0 : 0 ≤ i)
    (hlt : i.toNat < s.students.length) :
    ∃ s1 s2, reducer s (.editStudent i) = some s1 ∧
      reducer s1 (.updateStudent r) = some s2 ∧
      s2.students[i.toNat]? = some r ∧
      (∀ j, j ≠ i.toNat → s2.students[j]? = s.students[j]?) ∧
      s2.editIndex = none ∧ s2.name = "" ∧ s2.age = "" ∧
      s2.marks = emptyMarks := by
  obtain ⟨v, hv⟩ : ∃ v, s.students[i.toNat]? = some v :=
    ⟨_, List.getElem?_eq_getElem hlt⟩
  refine ⟨{ s with
             name := v.name
             age := v.age
             marks := v.marks.map jsNumberToString
             editIndex := some i },
          { s with
             students := jsAssign s.students i r
             name := ""
             age := ""
             marks := emptyMarks
             editIndex := none }, ?_, rfl, ?_, ?_, rfl, rfl, rfl, rfl⟩
  · simp [reducer, jsIndex, h0, hv]
  · show (jsAssign s.students i r)[i.toNat]? = some r
    rw [jsAssign_of_lt _ _ _ h0 hlt]
    exact List.getElem?_set_eq_of_lt r hlt
  · intro j hj
    show (jsAssign s.students i r)[j]? = s.students[j]?
    rw [jsAssign_of_lt _ _ _ h0 hlt]
    exact List.getElem?_set_ne (Ne.symm hj)

/-- Witness for C8 at a concrete state, index and record. -/
theorem spec_C8_witness :
    ∃ s1 s2, reducer fiveState (.editStudent 1) = some s1 ∧
      reducer s1 (.updateStudent (sampleStudent "Z")) = some s2 ∧
      s2.students[(1 : ℤ).toNat]? = some (sampleStudent "Z") ∧
      (∀ j, j ≠ (1 : ℤ).toNat → s2.students[j]? = fiveState.students[j]?) ∧
      s2.editIndex = none ∧ s2.name = "" ∧ s2.age = "" ∧
      s2.marks = emptyMarks :=
  spec_C8 fiveState 1 (sampleStudent "Z") (by norm_num) (by decide)

/-- C9: the displayed sequence equals the spec's reference pipeline
(annotate with the canonical index, case-insensitive substring filter,
stable sort by the active key with the fixed division ranks and numeric
percentages), the empty search term keeps every record, and the
end-to-end examples sort by percentage to `[A, B]` and search `"b"`
to `[B]`. -/
theorem spec_C9 :
    (∀ (cmpName : String → String → ℚ) (students : List Student)
       (searchTerm sortKey : String),
      (∀ r ∈ students,
        (r.division = "First Division" ∨ r.division = "Second Division" ∨
         r.division = "Pass" ∨ r.division = "Fail") ∧
        (jsNumber r.percentage).isSome = true) →
      filteredSortedData cmpName
          { initialState with
              students := students
              searchTerm := searchTerm
              sortKey := sortKey } =
        specViewPipeline cmpName students searchTerm sortKey) ∧
    (∀ students : List Student,
      (annotate 0 students).filter (fun r =>
        jsIncludes (jsToLower r.student.name) (jsToLower "")) =
      annotate 0 students) ∧
    filteredSortedData (fun _ _ => 0) exampleState =
      [⟨exampleA, 0⟩, ⟨exampleB, 1⟩] ∧
    filteredSortedData (fun _ _ => 0) { exampleState with searchTerm := "b" } =
      [⟨exampleB, 1⟩] := by
  refine ⟨fun cmpName students searchTerm sortKey hwf => ?_, fun students => ?_,
    ?_, ?_⟩
  · show sortCmp (viewComparator sortKey cmpName)
        ((annotate 0 students).filter (fun r =>
          jsIncludes (jsToLower r.student.name) (jsToLower searchTerm))) =
      sortCmp (specComparator sortKey cmpName)
        ((annotate 0 students).filter (fun r =>
          jsIncludes (jsToLower r.student.name) (jsToLower searchTerm)))
    refine sortCmp_congr _ _ _ (fun a ha b hb => ?_)
    have haS := student_mem_of_mem_annotate students 0 a (List.mem_filter.mp ha).1
    have hbS := student_mem_of_mem_annotate students 0 b (List.mem_filter.mp hb).1
    obtain ⟨hadiv, haperc⟩ := hwf _ haS
    obtain ⟨hbdiv, hbperc⟩ := hwf _ hbS
    unfold viewComparator specComparator
    by_cases hname : sortKey = "name"
    · rw [if_pos hname, if_pos hname]
    · rw [if_neg hname, if_neg hname]
      by_cases hdiv : sortKey = "division"
      · rw [if_pos hdiv, if_pos hdiv]
        have ha' : divisionOrder a.student.division =
            some (specDivisionRank a.student.division) := by
          rcases hadiv with h | h | h | h <;> rw [h] <;> decide
        have hb' : divisionOrder b.student.division =
            some (specDivisionRank b.student.division) := by
          rcases hbdiv with h | h | h | h <;> rw [h] <;> decide
        rw [ha', hb']
      · rw [if_neg hdiv, if_neg hdiv]
        obtain ⟨qa, hqa⟩ := Option.isSome_iff_exists.mp haperc
        obtain ⟨qb, hqb⟩ := Option.isSome_iff_exists.mp hbperc
        simp [specNumPercentage, hqa, hqb]
  · refine List.filter_eq_self.mpr (fun r _ => ?_)
    show jsIncludes (jsToLower r.student.name) (jsToLower "") = true
    have : (jsToLower "") = "" := rfl
    rw [this]
    show hasSub [] (jsToLower r.student.name).toList = true
    cases (jsToLower r.student.name).toList <;> simp [hasSub, beginsWith]
  · have hfil : (annotate 0 [exampleA, exampleB]).filter (fun r =>
        jsIncludes (jsToLower r.student.name) (jsToLower "")) =
        [⟨exampleA, 0⟩, ⟨exampleB, 1⟩] := by decide
    have hAB : viewComparator "percentage" (fun _ _ => 0)
        ⟨exampleA, 0⟩ ⟨exampleB, 1⟩ = -40 := by
      rw [viewComparator, if_neg (by decide), if_neg (by decide)]
      norm_num [exampleA, exampleB, jsNumber_40_00, jsNumber_80_00]
    rw [filteredSortedData,
        show exampleState.students = [exampleA, exampleB] from rfl,
        show exampleState.searchTerm = "" from rfl,
        show exampleState.sortKey = "percentage" from rfl, hfil]
    simp only [sortCmp, insertCmp, hAB]
    norm_num
  · have hfil : (annotate 0 [exampleA, exampleB]).filter (fun r =>
        jsIncludes (jsToLower r.student.name) (jsToLower "b")) =
        [⟨exampleB, 1⟩] := by decide
    rw [filteredSortedData,
        show ({ exampleState with searchTerm := "b" } : AppState).students =
          [exampleA, exampleB] from rfl,
        show ({ exampleState with searchTerm := "b" } : AppState).searchTerm =
          "b" from rfl,
        hfil]
    simp only [sortCmp, insertCmp]

/-- Witness for C9's refinement at the example data. -/
theorem spec_C9_witness :
    filteredSortedData (fun _ _ => 0)
        { initialState with
            students := [exampleA, exampleB]
            searchTerm := ""
            sortKey := "percentage" } =
      specViewPipeline (fun _ _ => 0) [exampleA, exampleB] "" "percentage" :=
  spec_C9.1 (fun _ _ => 0) [exampleA, exampleB] "" "percentage" (by
    intro r hr
    rcases List.mem_cons.mp hr with h | h
    · subst h
      refine ⟨Or.inl rfl, ?_⟩
      rw [show exampleA.percentage = "80.00" from rfl, jsNumber_80_00]
      rfl
    · rcases List.mem_cons.mp h with h' | h'
      · subst h'
        refine ⟨Or.inr (Or.inr (Or.inl rfl)), ?_⟩
        rw [show exampleB.percentage = "40.00" from rfl, jsNumber_40_00]
        rfl
      · simp at h')

/-- C10: an out-of-range `DELETE_STUDENT` (negative index or index at
least the length) leaves the students list unchanged. -/
theorem spec_C10 (s : AppState) (i : ℤ)
    (h : i < 0 ∨ (s.students.length : ℤ) ≤ i) :
    ∃ s', reducer s (.deleteStudent i) = some s' ∧
      s'.students = s.students := by
  refine ⟨_, rfl, ?_⟩
  show deleteAt 0 i s.students = s.students
  refine deleteAt_eq_of_out i s.students 0 ?_
  rcases h with h | h
  · left; omega
  · right; omega

/-- Witness for C10 at a negative index. -/
theorem spec_C10_witness :
    ∃ s', reducer fiveState (.deleteStudent (-1)) = some s' ∧
      s'.students = fiveState.students :=
  spec_C10 fiveState (-1) (by norm_num)

end StudentApp
